import Mathlib

/-!
Shallow embedding of the SparkFun RED-V lab support package
(`EasyREDVIO_ThingPlus.h`, `EasyREDVIO.h`, `REDV_SPI.h`, `lab8starter.c`).

Machine integers are modelled as `Nat` with explicit truncation (`% 2^w`,
`&&& 0xFF`, ...) exactly where the C code narrows a value (bitfield
assignment, `uint8_t`/`uint16_t` parameters and casts).  The SPI peripheral
is external hardware: the byte read back from `rxdata.data` is supplied by
an environment `env : List Nat → Nat` mapping the full history of bytes
written to `txdata.data` (latest byte last) to the byte sitting in the
receive FIFO.  A separate fine-grained model (`spiSendReceiveTrace`)
exposes the busy-wait polling of the watermark pending flags.
-/

/-- The seventeen 32-bit registers of the `GPIO` struct in
`EasyREDVIO_ThingPlus.h` (offsets 0x00–0x40), each held as a `Nat` whose
value is kept below `2^32` by the operations that touch it. -/
structure GpioRegs where
  input_val : Nat
  input_en : Nat
  output_en : Nat
  output_val : Nat
  pue : Nat
  ds : Nat
  rise_ie : Nat
  rise_ip : Nat
  fall_ie : Nat
  fall_ip : Nat
  high_ie : Nat
  high_ip : Nat
  low_ie : Nat
  low_ip : Nat
  iof_en : Nat
  iof_sel : Nat
  out_xor : Nat
deriving DecidableEq, Repr

/-- The registers as a list, for stating frame properties uniformly. -/
def GpioRegs.regList (g : GpioRegs) : List Nat :=
  [g.input_val, g.input_en, g.output_en, g.output_val, g.pue, g.ds,
   g.rise_ie, g.rise_ip, g.fall_ie, g.fall_ip, g.high_ie, g.high_ip,
   g.low_ie, g.low_ip, g.iof_en, g.iof_sel, g.out_xor]

/-- The C expression `~(1 << pin)` as it lands in a `uint32_t` register:
all 32 bits set except bit `pin` (for `pin < 32`). -/
def mask32 (pin : Nat) : Nat := 0xFFFFFFFF ^^^ (1 <<< pin)

/-- `pinMode` of `EasyREDVIO_ThingPlus.h`: the pin number is used directly
as the bit index.  `INPUT = 0` sets `input_en`; `OUTPUT = 1` sets
`output_en` and clears `iof_en`; `GPIO_IOF0 = 2` clears `iof_sel` and sets
`iof_en`; any other function falls through the `switch` untouched. -/
def pinMode (g : GpioRegs) (pin : Nat) (function : Nat) : GpioRegs :=
  if function = 0 then
    { g with input_en := g.input_en ||| (1 <<< pin) }
  else if function = 1 then
    { g with output_en := g.output_en ||| (1 <<< pin),
             iof_en := g.iof_en &&& mask32 pin }
  else if function = 2 then
    { g with iof_sel := g.iof_sel &&& mask32 pin,
             iof_en := g.iof_en ||| (1 <<< pin) }
  else g

/-- `digitalWrite` of `EasyREDVIO_ThingPlus.h`: sets or clears bit `pin`
of `output_val` according to whether `val` is nonzero. -/
def digitalWrite (g : GpioRegs) (pin : Nat) (val : Nat) : GpioRegs :=
  if val ≠ 0 then { g with output_val := g.output_val ||| (1 <<< pin) }
  else { g with output_val := g.output_val &&& mask32 pin }

/-- `digitalRead` of `EasyREDVIO_ThingPlus.h`: returns
`(input_val >> pin) & 0x1`; the function performs no register writes, so
the register state is returned unchanged. -/
def digitalRead (g : GpioRegs) (pin : Nat) : Nat × GpioRegs :=
  ((g.input_val >>> pin) &&& 0x1, g)

/-- The SPI configuration bitfields of `REDV_SPI.h` that the program
writes or carries: one field per named C bitfield (`sckdiv.div`,
`sckmode.pha/pol`, `csid.csid`, `csdef.csdef`, `csmode.mode`,
`delay0.cssck/sckcs`, `delay1.intercs/interxfr`,
`fmt.proto/endian/dir/len`, `txmark.txmark`, `rxmark.rxmark`, `fctrl.en`,
`ie.txwm/rxwm`).  The FIFO ports `txdata`/`rxdata` and the pending flags
`ip` are hardware-driven and are modelled by the environment instead. -/
structure SpiRegs where
  sckdiv_div : Nat
  sckmode_pha : Nat
  sckmode_pol : Nat
  csid_csid : Nat
  csdef_csdef : Nat
  csmode_mode : Nat
  delay0_cssck : Nat
  delay0_sckcs : Nat
  delay1_intercs : Nat
  delay1_interxfr : Nat
  fmt_proto : Nat
  fmt_endian : Nat
  fmt_dir : Nat
  fmt_len : Nat
  txmark_txmark : Nat
  rxmark_rxmark : Nat
  fctrl_en : Nat
  ie_txwm : Nat
  ie_rxwm : Nat
deriving DecidableEq, Repr

/-- Whole machine state: the GPIO register block, the SPI1 register block,
and the log of bytes written to `SPI1->txdata.data` (the wire log; each
entry is the argument of one `spiSendReceive` call, truncated to 8 bits). -/
structure MachState where
  gpio : GpioRegs
  spi : SpiRegs
  sent : List Nat
deriving DecidableEq, Repr

/-- `spiInit` of `lab8starter.c`: routes pins 2–5 to hardware function 0,
then writes the SPI configuration registers.  Bitfield assignments
truncate to the field width (`div` is 12 bits, `pol`/`pha` 1 bit); all
other assigned values are constants already within their field widths. -/
def spiInit (st : MachState) (clkdivide cpol cpha : Nat) : MachState :=
  let g0 := pinMode st.gpio 2 2
  let g1 := pinMode g0 3 2
  let g2 := pinMode g1 4 2
  let g3 := pinMode g2 5 2
  { st with
    gpio := g3,
    spi := { st.spi with
      sckdiv_div := clkdivide % 4096,
      sckmode_pol := cpol % 2,
      sckmode_pha := cpha % 2,
      csid_csid := 0,
      csmode_mode := 2,
      fmt_proto := 0,
      fmt_endian := 0,
      fmt_dir := 0,
      fmt_len := 8,
      fctrl_en := 0,
      delay1_interxfr := 0,
      delay0_cssck := 0,
      delay0_sckcs := 0,
      ie_rxwm := 1,
      ie_txwm := 1,
      rxmark_rxmark := 0,
      txmark_txmark := 1 } }

/-- Data-level model of `spiSendReceive` of `lab8starter.c`, valid when
both watermark waits terminate (the polling itself is modelled separately
by `spiSendReceiveTrace`): the byte `send` (a `uint8_t` parameter) is
written to `txdata.data` and the 8-bit `rxdata.data` byte supplied by the
environment for the resulting wire history is returned. -/
def spiSendReceive (env : List Nat → Nat) (st : MachState) (send : Nat) :
    Nat × MachState :=
  let sent := st.sent ++ [send % 256]
  (env sent % 256, { st with sent := sent })

/-- `spiSendReceive16` of `lab8starter.c`: truncates `data` to 16 bits
(`uint16_t` parameter), sets `csmode.mode` to HOLD (2), chains two
`spiSendReceive` calls on the high then the low byte, composes the two
received bytes big-endian into the `uint16_t` local `rec`, and restores
`csmode.mode` to AUTO (0). -/
def spiSendReceive16 (env : List Nat → Nat) (st : MachState) (data : Nat) :
    Nat × MachState :=
  let d := data % 65536
  let st0 := { st with spi := { st.spi with csmode_mode := 2 } }
  let p1 := spiSendReceive env st0 ((d &&& 0xFF00) >>> 8)
  let p2 := spiSendReceive env p1.2 (d &&& 0x00FF)
  let recv := ((p1.1 <<< 8) ||| p2.1) % 65536
  (recv, { p2.2 with spi := { p2.2.spi with csmode_mode := 0 } })

/-- `spiWrite` of `lab8starter.c`: `spiSendReceive16(address << 8 | value)`
with `uint8_t` parameters; the return value is discarded. -/
def spiWrite (env : List Nat → Nat) (st : MachState) (address value : Nat) :
    MachState :=
  (spiSendReceive16 env st (((address % 256) <<< 8) ||| (value % 256))).2

/-- `spiRead` of `lab8starter.c`:
`(uint8_t) spiSendReceive16(address << 8 | (1 << 15))` with a `uint8_t`
parameter; the final cast keeps only the low byte. -/
def spiRead (env : List Nat → Nat) (st : MachState) (address : Nat) :
    Nat × MachState :=
  let p := spiSendReceive16 env st (((address % 256) <<< 8) ||| (1 <<< 15))
  (p.1 % 256, p.2)

/-- Observable events of one `spiSendReceive` call: polls of the two
watermark pending flags (with the value read), the write to
`txdata.data`, and the final read of `rxdata.data`. -/
inductive SpiEvent where
  | pollTxwm : Bool → SpiEvent
  | writeTxdata : Nat → SpiEvent
  | pollRxwm : Bool → SpiEvent
  | readRxdata : Nat → SpiEvent
deriving DecidableEq, Repr

/-- Hardware behaviour visible to one `spiSendReceive` call: `txwm k` is
the value of `SPI1->ip.txwm` on the k-th iteration of the first wait
loop, `rxwm k` the value of `SPI1->ip.rxwm` on the k-th iteration of the
second, and `rxbyte` the byte in `rxdata.data` when it is finally read. -/
structure SpiHw where
  txwm : Nat → Bool
  rxwm : Nat → Bool
  rxbyte : Nat

/-- One busy-wait loop `while(!flag);`, observed for at most `fuel`
polls starting at poll index `k`: returns the list of poll events emitted
and whether the loop exited within the budget.  The C loop itself has no
bound; quantifying over `fuel` recovers its unbounded behaviour. -/
def pollLoop (flag : Nat → Bool) (mkEv : Bool → SpiEvent) :
    Nat → Nat → List SpiEvent × Bool
  | 0, _ => ([], false)
  | fuel + 1, k =>
    if flag k then ([mkEv true], true)
    else
      let r := pollLoop flag mkEv fuel (k + 1)
      (mkEv false :: r.1, r.2)

/-- Fine-grained model of `spiSendReceive` of `lab8starter.c`: spin on
`ip.txwm`, then write `send` to `txdata.data`, then spin on `ip.rxwm`,
then read and return `rxdata.data`.  The result is `none` when one of the
unbounded C loops has not yet exited within `fuel` polls. -/
def spiSendReceiveTrace (hw : SpiHw) (send : Nat) (fuel : Nat) :
    List SpiEvent × Option Nat :=
  if (pollLoop hw.txwm SpiEvent.pollTxwm fuel 0).2 then
    if (pollLoop hw.rxwm SpiEvent.pollRxwm fuel 0).2 then
      ((pollLoop hw.txwm SpiEvent.pollTxwm fuel 0).1
        ++ [SpiEvent.writeTxdata (send % 256)]
        ++ (pollLoop hw.rxwm SpiEvent.pollRxwm fuel 0).1
        ++ [SpiEvent.readRxdata (hw.rxbyte % 256)],
       some (hw.rxbyte % 256))
    else
      ((pollLoop hw.txwm SpiEvent.pollTxwm fuel 0).1
        ++ [SpiEvent.writeTxdata (send % 256)]
        ++ (pollLoop hw.rxwm SpiEvent.pollRxwm fuel 0).1, none)
  else ((pollLoop hw.txwm SpiEvent.pollTxwm fuel 0).1, none)

/-- The pin map of `EasyREDVIO.h`: `digitalPinMapping[20]`, with `-1` in
place of D14 which is not connected. -/
def digitalPinMapping : List Int :=
  [16, 17, 18, 19, 20, 21, 22, 23, 0, 1, 2, 3, 4, 5, -1, 9, 10, 11, 12, 13]

/-- `pinToGPIO` of `EasyREDVIO.h`: guarded by `(pin != 14) & (pin < 20)`;
the guard never checks `pin >= 0`, so a negative pin reaches the array
subscript out of bounds, modelled as `none` (undefined behaviour). -/
def pinToGPIO (pin : Int) : Option Int :=
  if pin ≠ 14 ∧ pin < 20 then
    if 0 ≤ pin then some (digitalPinMapping.getD pin.toNat 0) else none
  else some (-1)

/-- All-zero GPIO register block (the hardware reset state). -/
def gpioZero : GpioRegs :=
  ⟨0, 0, 0, 0, 0, 0, 0, 0, 0, 0, 0, 0, 0, 0, 0, 0, 0⟩

/-- All-zero SPI register block. -/
def spiZero : SpiRegs :=
  ⟨0, 0, 0, 0, 0, 0, 0, 0, 0, 0, 0, 0, 0, 0, 0, 0, 0, 0, 0⟩

/-- Reset machine state with an empty wire log. -/
def machZero : MachState := ⟨gpioZero, spiZero, []⟩

/-- Environment whose receive FIFO always holds zero. -/
def envZero : List Nat → Nat := fun _ => 0

/-- Environment that echoes back the byte most recently sent. -/
def envEcho : List Nat → Nat := fun l => l.getLastD 0

/-! ### Bit-level helper lemmas -/

/-- Bit `i` of `1 <<< p` is set exactly when `i = p`. -/
theorem testBit_one_shiftLeft (p i : Nat) : (1 <<< p).testBit i = decide (p = i) := by
  rw [Nat.one_shiftLeft]
  exact Nat.testBit_two_pow

/-- Setting bit `p` leaves every other bit unchanged. -/
theorem setBit_frame (x p i : Nat) (h : i ≠ p) :
    (x ||| 1 <<< p).testBit i = x.testBit i := by
  rw [Nat.testBit_lor, testBit_one_shiftLeft]
  simp [Ne.symm h]

/-- Within the 32-bit register width, `mask32 p` has every bit set except bit `p`. -/
theorem testBit_mask32 (p i : Nat) (hi : i < 32) :
    (mask32 p).testBit i = !decide (p = i) := by
  rw [mask32, show (0xFFFFFFFF : Nat) = 2 ^ 32 - 1 by norm_num,
    Nat.testBit_xor, testBit_one_shiftLeft, Nat.testBit_two_pow_sub_one]
  simp [hi]

/-- Clearing bit `p` through `mask32` leaves every other in-width bit unchanged. -/
theorem clearBit_frame (x p i : Nat) (h : i ≠ p) (hi : i < 32) :
    (x &&& mask32 p).testBit i = x.testBit i := by
  rw [Nat.testBit_land, testBit_mask32 p i hi]
  simp [Ne.symm h]

/-- Re-clearing the same four mask bits is absorbed. -/
theorem land_twice (x a b c d : Nat) :
    x &&& a &&& b &&& c &&& d &&& a &&& b &&& c &&& d = x &&& a &&& b &&& c &&& d := by
  apply Nat.eq_of_testBit_eq
  intro i
  simp only [Nat.testBit_land]
  cases x.testBit i <;> cases a.testBit i <;> cases b.testBit i <;>
    cases c.testBit i <;> cases d.testBit i <;> rfl

/-- Re-setting the same four bits is absorbed. -/
theorem lor_twice (x a b c d : Nat) :
    x ||| a ||| b ||| c ||| d ||| a ||| b ||| c ||| d = x ||| a ||| b ||| c ||| d := by
  apply Nat.eq_of_testBit_eq
  intro i
  simp only [Nat.testBit_lor]
  cases x.testBit i <;> cases a.testBit i <;> cases b.testBit i <;>
    cases c.testBit i <;> cases d.testBit i <;> rfl

/-- Masking with `0xFF` is reduction modulo 256. -/
theorem and_ff_eq_mod (x : Nat) : x &&& 0xFF = x % 256 := by
  apply Nat.eq_of_testBit_eq
  intro i
  rw [show (256 : Nat) = 2 ^ 8 by norm_num, Nat.testBit_mod_two_pow, Nat.testBit_land,
    show (0xFF : Nat) = 2 ^ 8 - 1 by norm_num, Nat.testBit_two_pow_sub_one]
  exact Bool.and_comm _ _

/-- A value masked with `0xFF` is a byte. -/
theorem and_ff_lt (x : Nat) : x &&& 0xFF < 256 := by
  have h : x &&& 0xFF ≤ 0xFF := Nat.and_le_right
  omega

/-- The C idiom `(x & 0xFF00) >> 8` extracts the same bits as `(x >> 8) & 0xFF`. -/
theorem hi_byte_extract (x : Nat) : (x &&& 0xFF00) >>> 8 = (x >>> 8) &&& 0xFF := by
  apply Nat.eq_of_testBit_eq
  intro i
  rw [Nat.testBit_shiftRight, Nat.testBit_land, Nat.testBit_land, Nat.testBit_shiftRight,
    show (0xFF00 : Nat) = 0xFF <<< 8 by decide, Nat.testBit_shiftLeft]
  simp

/-- Shifting a byte-composed word right by 8 recovers the high part. -/
theorem compose_hi (a v : Nat) (hv : v < 256) : ((a <<< 8) ||| v) >>> 8 = a := by
  apply Nat.eq_of_testBit_eq
  intro i
  rw [Nat.testBit_shiftRight, Nat.testBit_lor, Nat.testBit_shiftLeft]
  have h28 : (256 : Nat) ≤ 2 ^ (8 + i) := by
    calc (256 : Nat) = 2 ^ 8 := by norm_num
    _ ≤ 2 ^ (8 + i) := Nat.pow_le_pow_right (by norm_num) (by omega)
  have hvb : v.testBit (8 + i) = false :=
    Nat.testBit_lt_two_pow (lt_of_lt_of_le hv h28)
  rw [hvb]
  simp

/-- Reducing a byte-composed word modulo 256 recovers the low part. -/
theorem compose_lo (a v : Nat) (hv : v < 256) : ((a <<< 8) ||| v) % 256 = v := by
  rw [← and_ff_eq_mod]
  apply Nat.eq_of_testBit_eq
  intro i
  rw [Nat.testBit_land, Nat.testBit_lor, Nat.testBit_shiftLeft,
    show (0xFF : Nat) = 2 ^ 8 - 1 by norm_num, Nat.testBit_two_pow_sub_one]
  by_cases h : i < 8
  · have hge : decide (i ≥ 8) = false := by simp; omega
    simp [h, hge]
  · have h2i : (256 : Nat) ≤ 2 ^ i := by
      calc (256 : Nat) = 2 ^ 8 := by norm_num
      _ ≤ 2 ^ i := Nat.pow_le_pow_right (by norm_num) (by omega)
    have hvb : v.testBit i = false := Nat.testBit_lt_two_pow (lt_of_lt_of_le hv h2i)
    simp [h, hvb]

/-- A word composed of two bytes fits in 16 bits. -/
theorem compose_lt (c1 c2 : Nat) (h1 : c1 < 256) (h2 : c2 < 256) :
    (c1 <<< 8) ||| c2 < 65536 := by
  have ha : c1 <<< 8 < 2 ^ 16 := by
    rw [Nat.shiftLeft_eq]
    norm_num
    omega
  have hb : c2 < 2 ^ 16 := by norm_num; omega
  have h := Nat.or_lt_two_pow ha hb
  norm_num at h
  exact h

/-! ### Claim theorems -/

/-- C4 (code evaluated at the failing input): the claim says pin 14 must
leave every GPIO bit unchanged, but `pinMode` of `EasyREDVIO_ThingPlus.h`
uses the pin number directly as a bit index, so `pinMode(14, INPUT)` sets
bit 14 of `input_en` (and `digitalWrite(14, HIGH)` sets bit 14 of
`output_val`), starting from the all-zero register block. -/
theorem pinMode_pin14_mutates :
    (pinMode gpioZero 14 0).input_en = 16384 ∧ gpioZero.input_en = 0
    ∧ (digitalWrite gpioZero 14 1).output_val = 16384 ∧ gpioZero.output_val = 0 := by
  decide

/-- C9: whatever the input and starting state, `spiSendReceive16` returns
with `csmode.mode` = 0 (AUTO), although `spiInit` had configured
`csmode.mode` = 2 (HOLD). -/
theorem spiSendReceive16_leaves_auto (env : List Nat → Nat) (st st' : MachState)
    (x c p h : Nat) :
    (spiSendReceive16 env st x).2.spi.csmode_mode = 0
    ∧ (spiInit st' c p h).spi.csmode_mode = 2 :=
  ⟨rfl, rfl⟩

/-- C10: `pinToGPIO` returns the `digitalPinMapping` table entry for pins
0–19 other than 14, returns -1 for pin 14 and for pins ≥ 20, and its
guard admits negative pins to the array subscript (undefined behaviour,
modelled as `none`); the table is 16–23 for pins 0–7, 0–5 for pins 8–13,
-1 at 14, and 9–13 for pins 15–19. -/
theorem pinToGPIO_spec :
    (∀ p : Int, 0 ≤ p → p < 20 → p ≠ 14 →
      pinToGPIO p = some (digitalPinMapping.getD p.toNat 0))
    ∧ pinToGPIO 14 = some (-1)
    ∧ (∀ p : Int, 20 ≤ p → pinToGPIO p = some (-1))
    ∧ (∀ p : Int, p < 0 → pinToGPIO p = none)
    ∧ digitalPinMapping
        = [16, 17, 18, 19, 20, 21, 22, 23, 0, 1, 2, 3, 4, 5, -1, 9, 10, 11, 12, 13] := by
  refine ⟨?_, by decide, ?_, ?_, rfl⟩
  · intro p h0 h20 h14
    unfold pinToGPIO
    rw [if_pos ⟨h14, h20⟩, if_pos h0]
  · intro p hp
    unfold pinToGPIO
    rw [if_neg]
    intro hcon
    omega
  · intro p hp
    unfold pinToGPIO
    rw [if_pos ⟨by omega, by omega⟩, if_neg (by omega)]

/-- C10 witness: pin 3 is valid and maps through the table. -/
theorem pinToGPIO_spec_witness :
    pinToGPIO 3 = some (digitalPinMapping.getD ((3 : Int)).toNat 0) :=
  pinToGPIO_spec.1 3 (by decide) (by decide) (by decide)

/-- C2 counterexample: with the environment that echoes the byte just
sent and address 1, `spiRead` (which transmits low byte 0x00) differs
from the low byte of `spiSendReceive16((a << 8) | 0x8000 | a)` (which
transmits low byte `a`), so the claimed equality fails as stated. -/
theorem spiRead_counterexample :
    (spiRead envEcho machZero 1).1
      ≠ (spiSendReceive16 envEcho machZero ((1 <<< 8) ||| 0x8000 ||| 1)).1 &&& 0xFF := by
  decide

/-- C3 counterexample: `spiWrite(0x80, 0x00)` puts the bytes 0x80, 0x00
on the wire, and the 16-bit word they form has its top bit set — the
"write marker" is not guaranteed clear. -/
theorem spiWrite_counterexample :
    (spiWrite envZero machZero 128 0).sent = [128, 0]
    ∧ Nat.testBit ((128 <<< 8) ||| 0) 15 = true := by
  decide

/-- The 16-bit read command word fits in 16 bits. -/
theorem read_word_lt (a : Nat) (ha : a < 256) : (a <<< 8) ||| (1 <<< 15) < 65536 := by
  have h1 : a <<< 8 < 2 ^ 16 := by
    rw [Nat.shiftLeft_eq]
    norm_num
    omega
  have h2 : (1 <<< 15 : Nat) < 2 ^ 16 := by decide
  have h := Nat.or_lt_two_pow h1 h2
  norm_num at h
  exact h

/-- Forcing the read-marker bit keeps the address a byte. -/
theorem or80_lt (a : Nat) (ha : a < 256) : a ||| 0x80 < 256 := by
  have h1 : a < 2 ^ 8 := by norm_num; omega
  have h2 : (0x80 : Nat) < 2 ^ 8 := by norm_num
  have h := Nat.or_lt_two_pow h1 h2
  norm_num at h
  exact h

/-- High byte of the read command word: the address with its top bit forced. -/
theorem shift_or_high (a : Nat) : ((a <<< 8) ||| (1 <<< 15)) >>> 8 = a ||| 0x80 := by
  apply Nat.eq_of_testBit_eq
  intro i
  rw [Nat.testBit_shiftRight, Nat.testBit_lor, Nat.testBit_lor, Nat.testBit_shiftLeft,
    testBit_one_shiftLeft, show (0x80 : Nat) = 2 ^ 7 by norm_num, Nat.testBit_two_pow]
  have e1 : decide (15 = 8 + i) = decide (7 = i) := decide_eq_decide.mpr (by omega)
  simp [e1, Nat.add_sub_cancel_left]

/-- Low byte of the read command word: zero. -/
theorem shift_or_low (a : Nat) : ((a <<< 8) ||| (1 <<< 15)) &&& 0x00FF = 0 := by
  apply Nat.eq_of_testBit_eq
  intro i
  rw [Nat.testBit_land, Nat.testBit_lor, Nat.testBit_shiftLeft, testBit_one_shiftLeft,
    show (0x00FF : Nat) = 2 ^ 8 - 1 by norm_num, Nat.testBit_two_pow_sub_one,
    Nat.zero_testBit]
  by_cases h : i < 8
  · have hge : decide (i ≥ 8) = false := by simp; omega
    have h15 : decide (15 = i) = false := by simp; omega
    simp [hge, h15]
  · simp [h]

/-- C1: `spiSendReceive16(x)` appends exactly the two bytes
`(x >> 8) & 0xFF` then `x & 0xFF` to the wire log — one per
`spiSendReceive` call — and returns `(r1 << 8) | r2`, where `r1` and `r2`
are the bytes the environment returned for the first and second call. -/
theorem spiSendReceive16_two_transfers (env : List Nat → Nat) (st : MachState)
    (x : Nat) (hx : x < 65536) :
    (spiSendReceive16 env st x).2.sent
      = st.sent ++ [(x >>> 8) &&& 0xFF, x &&& 0xFF]
    ∧ (spiSendReceive16 env st x).1
      = ((env (st.sent ++ [(x >>> 8) &&& 0xFF]) % 256) <<< 8)
          ||| (env (st.sent ++ [(x >>> 8) &&& 0xFF, x &&& 0xFF]) % 256) := by
  have hd : x % 65536 = x := Nat.mod_eq_of_lt hx
  have h1 : ((x >>> 8) &&& 0xFF) % 256 = (x >>> 8) &&& 0xFF :=
    Nat.mod_eq_of_lt (and_ff_lt _)
  have h2 : (x &&& 0x00FF) % 256 = x &&& 0x00FF := Nat.mod_eq_of_lt (and_ff_lt _)
  refine ⟨?_, ?_⟩ <;>
    simp only [spiSendReceive16, spiSendReceive, hd, hi_byte_extract, h1, h2,
      List.append_assoc, List.singleton_append]
  exact Nat.mod_eq_of_lt
    (compose_lt _ _ (Nat.mod_lt _ (by norm_num)) (Nat.mod_lt _ (by norm_num)))

/-- C1 witness: the two transfers and composed return value at a
concrete input. -/
theorem spiSendReceive16_two_transfers_witness :
    (spiSendReceive16 envEcho machZero 0xABCD).2.sent
      = machZero.sent ++ [(0xABCD >>> 8) &&& 0xFF, 0xABCD &&& 0xFF]
    ∧ (spiSendReceive16 envEcho machZero 0xABCD).1
      = ((envEcho (machZero.sent ++ [(0xABCD >>> 8) &&& 0xFF]) % 256) <<< 8)
          ||| (envEcho (machZero.sent ++ [(0xABCD >>> 8) &&& 0xFF, 0xABCD &&& 0xFF]) % 256) :=
  spiSendReceive16_two_transfers envEcho machZero 0xABCD (by norm_num)

/-- C2 (amended): `spiRead(a)` equals the low byte of
`spiSendReceive16((a << 8) | 0x8000)` — the low byte of the transmitted
word is 0x00, not `a` — namely the environment's response to the second
transfer, with the echoed address byte discarded; the wire carries the
bytes `a | 0x80` then `0x00`, and the transmitted word has its top bit
set regardless of the caller's address encoding. -/
theorem spiRead_amended (env : List Nat → Nat) (st : MachState) (a : Nat)
    (ha : a < 256) :
    (spiRead env st a).1 = (spiSendReceive16 env st ((a <<< 8) ||| 0x8000)).1 &&& 0xFF
    ∧ (spiRead env st a).1 = env (st.sent ++ [a ||| 0x80, 0]) % 256
    ∧ (spiRead env st a).2.sent = st.sent ++ [a ||| 0x80, 0]
    ∧ Nat.testBit (((a ||| 0x80) <<< 8) ||| 0) 15 = true := by
  have ha8 : a % 256 = a := Nat.mod_eq_of_lt ha
  have h15 : (1 <<< 15 : Nat) = 0x8000 := by decide
  have hWmod : ((a <<< 8) ||| (1 <<< 15)) % 65536 = (a <<< 8) ||| (1 <<< 15) :=
    Nat.mod_eq_of_lt (read_word_lt a ha)
  have hHi : (((a <<< 8) ||| (1 <<< 15)) &&& 0xFF00) >>> 8 = a ||| 0x80 := by
    rw [hi_byte_extract, shift_or_high, and_ff_eq_mod]
    exact Nat.mod_eq_of_lt (or80_lt a ha)
  have hHimod : (a ||| 0x80) % 256 = a ||| 0x80 := Nat.mod_eq_of_lt (or80_lt a ha)
  refine ⟨?_, ?_, ?_, ?_⟩
  · simp only [spiRead, ha8, h15]
    exact (and_ff_eq_mod _).symm
  · simp only [spiRead, spiSendReceive16, spiSendReceive, ha8, hWmod, hHi, hHimod,
      shift_or_low, Nat.zero_mod]
    rw [Nat.mod_mod_of_dvd _ (by norm_num), compose_lo _ _ (Nat.mod_lt _ (by norm_num))]
    simp [List.append_assoc]
  · simp only [spiRead, spiSendReceive16, spiSendReceive, ha8, hWmod, hHi, hHimod,
      shift_or_low, Nat.zero_mod]
    simp [List.append_assoc]
  · have hb7 : (a ||| 0x80).testBit 7 = true := by
      rw [Nat.testBit_lor, show (0x80 : Nat) = 2 ^ 7 by norm_num, Nat.testBit_two_pow_self]
      simp
    simp [Nat.testBit_shiftLeft, hb7]

/-- C2 witness: the amended behaviour at address 0x0F. -/
theorem spiRead_amended_witness :
    (spiRead envEcho machZero 15).1
      = (spiSendReceive16 envEcho machZero ((15 <<< 8) ||| 0x8000)).1 &&& 0xFF
    ∧ (spiRead envEcho machZero 15).1 = envEcho (machZero.sent ++ [15 ||| 0x80, 0]) % 256
    ∧ (spiRead envEcho machZero 15).2.sent = machZero.sent ++ [15 ||| 0x80, 0]
    ∧ Nat.testBit (((15 ||| 0x80) <<< 8) ||| 0) 15 = true :=
  spiRead_amended envEcho machZero 15 (by norm_num)

/-- C3 (amended): `spiWrite(a, v)` is exactly
`spiSendReceive16((a << 8) | v)` — it puts the bytes `a` then `v` on the
wire — but the top bit of the transmitted word is not forced clear: it
equals bit 7 of `a`, so it is clear only when the caller supplies an
address below 0x80. -/
theorem spiWrite_amended (env : List Nat → Nat) (st : MachState) (a v : Nat)
    (ha : a < 256) (hv : v < 256) :
    spiWrite env st a v = (spiSendReceive16 env st ((a <<< 8) ||| v)).2
    ∧ (spiWrite env st a v).sent = st.sent ++ [a, v]
    ∧ Nat.testBit ((a <<< 8) ||| v) 15 = a.testBit 7 := by
  have ha8 : a % 256 = a := Nat.mod_eq_of_lt ha
  have hv8 : v % 256 = v := Nat.mod_eq_of_lt hv
  have hWmod : ((a <<< 8) ||| v) % 65536 = (a <<< 8) ||| v :=
    Nat.mod_eq_of_lt (compose_lt a v ha hv)
  have hHi : (((a <<< 8) ||| v) &&& 0xFF00) >>> 8 = a := by
    rw [hi_byte_extract, compose_hi a v hv, and_ff_eq_mod]
    exact ha8
  have hLo : ((a <<< 8) ||| v) &&& 0x00FF = v := by
    rw [and_ff_eq_mod]
    exact compose_lo a v hv
  refine ⟨?_, ?_, ?_⟩
  · simp only [spiWrite, ha8, hv8]
  · simp only [spiWrite, spiSendReceive16, spiSendReceive, ha8, hv8, hWmod, hHi, hLo]
    simp [List.append_assoc]
  · rw [Nat.testBit_lor, Nat.testBit_shiftLeft]
    have hv15 : v.testBit 15 = false := by
      apply Nat.testBit_lt_two_pow
      norm_num
      omega
    simp [hv15]

/-- C3 witness: the amended behaviour at the write `spiWrite(0x20, 0x77)`
issued by `main`. -/
theorem spiWrite_amended_witness :
    spiWrite envEcho machZero 32 119
        = (spiSendReceive16 envEcho machZero ((32 <<< 8) ||| 119)).2
    ∧ (spiWrite envEcho machZero 32 119).sent = machZero.sent ++ [32, 119]
    ∧ Nat.testBit ((32 <<< 8) ||| 119) 15 = Nat.testBit 32 7 :=
  spiWrite_amended envEcho machZero 32 119 (by norm_num) (by norm_num)

/-- C5: for a valid logical pin (0–13 or 15–19) and any mode/value
arguments, `pinMode` and `digitalWrite` change at most bit `pin` of the
registers they touch — every other bit of every one of the seventeen
GPIO registers is unchanged — and `digitalRead` changes nothing. -/
theorem gpio_frame_property (g : GpioRegs) (pin function val i : Nat)
    (hpin : pin < 20) (hp14 : pin ≠ 14) (hi : i < 32) (hne : i ≠ pin) :
    (pinMode g pin function).regList.map (fun r => r.testBit i)
        = g.regList.map (fun r => r.testBit i)
    ∧ (digitalWrite g pin val).regList.map (fun r => r.testBit i)
        = g.regList.map (fun r => r.testBit i)
    ∧ (digitalRead g pin).2 = g := by
  refine ⟨?_, ?_, rfl⟩
  · unfold pinMode
    by_cases h0 : function = 0
    · simp [h0, GpioRegs.regList, setBit_frame _ _ _ hne]
    · by_cases h1 : function = 1
      · simp [h0, h1, GpioRegs.regList, setBit_frame _ _ _ hne,
          clearBit_frame _ _ _ hne hi]
      · by_cases h2 : function = 2
        · simp [h0, h1, h2, GpioRegs.regList, setBit_frame _ _ _ hne,
            clearBit_frame _ _ _ hne hi]
        · simp [h0, h1, h2]
  · unfold digitalWrite
    by_cases hv : val ≠ 0
    · simp [hv, GpioRegs.regList, setBit_frame _ _ _ hne]
    · simp [hv, GpioRegs.regList, clearBit_frame _ _ _ hne hi]

/-- C5 witness: pin 5 configured as OUTPUT and driven HIGH leaves bit 7
of every register unchanged. -/
theorem gpio_frame_property_witness :
    (pinMode gpioZero 5 1).regList.map (fun r => r.testBit 7)
        = gpioZero.regList.map (fun r => r.testBit 7)
    ∧ (digitalWrite gpioZero 5 1).regList.map (fun r => r.testBit 7)
        = gpioZero.regList.map (fun r => r.testBit 7)
    ∧ (digitalRead gpioZero 5).2 = gpioZero :=
  gpio_frame_property gpioZero 5 1 1 7 (by norm_num) (by norm_num) (by norm_num)
    (by norm_num)

/-- C8: `spiInit` is idempotent on the register state: running it twice
with the same arguments leaves exactly the state of running it once (the
four pin routings re-clear and re-set the same bits, and every SPI
register write stores a value depending only on the arguments). -/
theorem spiInit_idempotent (st : MachState) (clkdivide cpol cpha : Nat) :
    spiInit (spiInit st clkdivide cpol cpha) clkdivide cpol cpha
      = spiInit st clkdivide cpol cpha := by
  simp [spiInit, pinMode, land_twice, lor_twice]

/-- A busy-wait loop whose flag first becomes set on poll `k` emits `k`
false polls, then the successful poll, and exits. -/
theorem pollLoop_found (flag : Nat → Bool) (mkEv : Bool → SpiEvent) :
    ∀ (k fuel start : Nat), k < fuel →
      (∀ j, j < k → flag (start + j) = false) → flag (start + k) = true →
      pollLoop flag mkEv fuel start = (List.replicate k (mkEv false) ++ [mkEv true], true) := by
  intro k
  induction k with
  | zero =>
    intro fuel start hlt hf ht
    cases fuel with
    | zero => omega
    | succ f =>
      have ht0 : flag start = true := by simpa using ht
      simp [pollLoop, ht0]
  | succ k ih =>
    intro fuel start hlt hf ht
    cases fuel with
    | zero => omega
    | succ f =>
      have h0 : flag start = false := by simpa using hf 0 (Nat.succ_pos k)
      have hf1 : ∀ j, j < k → flag (start + 1 + j) = false := by
        intro j hj
        have := hf (j + 1) (by omega)
        simpa [Nat.add_assoc, Nat.add_comm 1 j] using this
      have ht1 : flag (start + 1 + k) = true := by
        have := ht
        simpa [Nat.add_assoc, Nat.add_comm 1 k] using this
      have := ih f (start + 1) (by omega) hf1 ht1
      simp [pollLoop, h0, this, List.replicate_succ]

/-- A busy-wait loop exits within `fuel` polls exactly when the flag is
set at some poll index below `fuel`. -/
theorem pollLoop_exit_iff (flag : Nat → Bool) (mkEv : Bool → SpiEvent) :
    ∀ (fuel start : Nat),
      (pollLoop flag mkEv fuel start).2 = true ↔ ∃ j, j < fuel ∧ flag (start + j) = true := by
  intro fuel
  induction fuel with
  | zero => intro start; simp [pollLoop]
  | succ f ih =>
    intro start
    cases hfs : flag start with
    | true =>
      simp only [pollLoop, hfs, if_true]
      constructor
      · intro _
        exact ⟨0, Nat.succ_pos f, by simpa using hfs⟩
      · intro _
        trivial
    | false =>
      simp only [pollLoop, hfs, Bool.false_eq_true, if_false]
      rw [ih (start + 1)]
      constructor
      · rintro ⟨j, hj, hfl⟩
        exact ⟨j + 1, by omega, by simpa [Nat.add_assoc, Nat.add_comm 1 j] using hfl⟩
      · rintro ⟨j, hj, hfl⟩
        cases j with
        | zero =>
          have hc : flag start = true := by simpa using hfl
          rw [hfs] at hc
          exact absurd hc (by simp)
        | succ j =>
          exact ⟨j, by omega, by simpa [Nat.add_assoc, Nat.add_comm 1 j] using hfl⟩

/-- C6: when the transmit-watermark pending flag first reads set on poll
`k1` and the receive-watermark pending flag first reads set on poll `k2`,
`spiSendReceive(send)` performs, in order: `k1` failed `ip.txwm` polls
and the successful one, the write of `send` to `txdata.data`, `k2`
failed `ip.rxwm` polls and the successful one, then the read of
`rxdata.data`, whose data byte it returns. -/
theorem spiSendReceive_step_order (hw : SpiHw) (send fuel k1 k2 : Nat)
    (htf : ∀ j, j < k1 → hw.txwm j = false) (htt : hw.txwm k1 = true)
    (hrf : ∀ j, j < k2 → hw.rxwm j = false) (hrt : hw.rxwm k2 = true)
    (hf1 : k1 < fuel) (hf2 : k2 < fuel) :
    spiSendReceiveTrace hw send fuel
      = (List.replicate k1 (SpiEvent.pollTxwm false) ++ [SpiEvent.pollTxwm true]
          ++ [SpiEvent.writeTxdata (send % 256)]
          ++ List.replicate k2 (SpiEvent.pollRxwm false) ++ [SpiEvent.pollRxwm true]
          ++ [SpiEvent.readRxdata (hw.rxbyte % 256)],
         some (hw.rxbyte % 256)) := by
  have e1 := pollLoop_found hw.txwm SpiEvent.pollTxwm k1 fuel 0 hf1
    (by intro j hj; simpa using htf j hj) (by simpa using htt)
  have e2 := pollLoop_found hw.rxwm SpiEvent.pollRxwm k2 fuel 0 hf2
    (by intro j hj; simpa using hrf j hj) (by simpa using hrt)
  simp [spiSendReceiveTrace, e1, e2]

/-- Demonstration hardware: transmit watermark already pending, receive
watermark pending from the second poll on, 0x33 in the receive FIFO. -/
def hwDemo : SpiHw :=
  ⟨fun _ => true, fun k => decide (1 ≤ k), 0x33⟩

/-- C6 witness: the full ordered trace against `hwDemo` for the
WHO_AM_I-style byte 0x0F. -/
theorem spiSendReceive_step_order_witness :
    spiSendReceiveTrace hwDemo 15 3
      = (List.replicate 0 (SpiEvent.pollTxwm false) ++ [SpiEvent.pollTxwm true]
          ++ [SpiEvent.writeTxdata (15 % 256)]
          ++ List.replicate 1 (SpiEvent.pollRxwm false) ++ [SpiEvent.pollRxwm true]
          ++ [SpiEvent.readRxdata (hwDemo.rxbyte % 256)],
         some (hwDemo.rxbyte % 256)) :=
  spiSendReceive_step_order hwDemo 15 3 0 1
    (by intro j hj; omega) (by decide) (by decide) (by decide) (by omega) (by omega)

/-- C7: `spiSendReceive` has no timeout: some poll budget makes it return
a byte exactly when the transmit-watermark pending flag is eventually set
and (after the transmit write) the receive-watermark pending flag is
eventually set; if either flag never reads set, no budget ever produces a
result — the call spins forever. -/
theorem spiSendReceive_terminates_iff (hw : SpiHw) (send : Nat) :
    (∃ fuel r, (spiSendReceiveTrace hw send fuel).2 = some r)
      ↔ (∃ k, hw.txwm k = true) ∧ (∃ k, hw.rxwm k = true) := by
  constructor
  · rintro ⟨fuel, r, hr⟩
    unfold spiSendReceiveTrace at hr
    by_cases h1 : (pollLoop hw.txwm SpiEvent.pollTxwm fuel 0).2 = true
    · by_cases h2 : (pollLoop hw.rxwm SpiEvent.pollRxwm fuel 0).2 = true
      · obtain ⟨j1, _, hj1⟩ := (pollLoop_exit_iff hw.txwm SpiEvent.pollTxwm fuel 0).mp h1
        obtain ⟨j2, _, hj2⟩ := (pollLoop_exit_iff hw.rxwm SpiEvent.pollRxwm fuel 0).mp h2
        exact ⟨⟨j1, by simpa using hj1⟩, ⟨j2, by simpa using hj2⟩⟩
      · rw [if_pos h1, if_neg h2] at hr
        simp at hr
    · rw [if_neg h1] at hr
      simp at hr
  · rintro ⟨⟨k1, hk1⟩, ⟨k2, hk2⟩⟩
    refine ⟨max k1 k2 + 1, hw.rxbyte % 256, ?_⟩
    have h1 : (pollLoop hw.txwm SpiEvent.pollTxwm (max k1 k2 + 1) 0).2 = true :=
      (pollLoop_exit_iff hw.txwm SpiEvent.pollTxwm (max k1 k2 + 1) 0).mpr
        ⟨k1, by omega, by simpa using hk1⟩
    have h2 : (pollLoop hw.rxwm SpiEvent.pollRxwm (max k1 k2 + 1) 0).2 = true :=
      (pollLoop_exit_iff hw.rxwm SpiEvent.pollRxwm (max k1 k2 + 1) 0).mpr
        ⟨k2, by omega, by simpa using hk2⟩
    simp [spiSendReceiveTrace, h1, h2]
